import Mathlib

/-!
Shallow embedding of `src/crypto/randomx/sha256/sha256.c` (SHA-256 and
SHA-256d), together with a specification-side rendering of the standard
compression function, and proofs relating the two.

Machine integers are modelled as `Nat` with explicit reduction modulo
`2^32` (written `4294967296`) or `2^64` (written `18446744073709551616`)
where the C code's unsigned arithmetic wraps.  Byte buffers are `List Nat`.
-/

/-- 32-bit wrapping addition (C `uint32_t` `+`). -/
def add32 (x y : Nat) : Nat := (x + y) % 4294967296

/-- C macro `SHR(x, n) = (x >> n)` on `uint32_t`. -/
def SHR (x n : Nat) : Nat := x >>> n

/-- C macro `ROTR(x, n) = ((x >> n) | (x << (32 - n)))` on `uint32_t`
(the left shift wraps modulo `2^32`). -/
def ROTR (x n : Nat) : Nat := (x >>> n) ||| ((x <<< (32 - n)) % 4294967296)

/-- C macro `Ch(x, y, z) = ((x & (y ^ z)) ^ z)`. -/
def Ch (x y z : Nat) : Nat := (x &&& (y ^^^ z)) ^^^ z

/-- C macro `Maj(x, y, z) = ((x & (y | z)) | (y & z))`. -/
def Maj (x y z : Nat) : Nat := (x &&& (y ||| z)) ||| (y &&& z)

/-- C macro `S0(x) = (ROTR(x, 2) ^ ROTR(x, 13) ^ ROTR(x, 22))`. -/
def S0 (x : Nat) : Nat := ROTR x 2 ^^^ ROTR x 13 ^^^ ROTR x 22

/-- C macro `S1(x) = (ROTR(x, 6) ^ ROTR(x, 11) ^ ROTR(x, 25))`. -/
def S1 (x : Nat) : Nat := ROTR x 6 ^^^ ROTR x 11 ^^^ ROTR x 25

/-- C macro `s0(x) = (ROTR(x, 7) ^ ROTR(x, 18) ^ SHR(x, 3))`. -/
def s0 (x : Nat) : Nat := ROTR x 7 ^^^ ROTR x 18 ^^^ SHR x 3

/-- C macro `s1(x) = (ROTR(x, 17) ^ ROTR(x, 19) ^ SHR(x, 10))`. -/
def s1 (x : Nat) : Nat := ROTR x 17 ^^^ ROTR x 19 ^^^ SHR x 10

/-- Modelled from the spec: ByteOrderCodec `decodeBE32(4 bytes) -> u32`
(`be32dec` from `sysendian.h`, which is outside `src/`; the spec declares
it an external collaborator with a big-endian contract). -/
def be32dec (b : List Nat) : Nat :=
  (b.getD 0 0 <<< 24) ||| (b.getD 1 0 <<< 16) ||| (b.getD 2 0 <<< 8) ||| b.getD 3 0

/-- Modelled from the spec: ByteOrderCodec `encodeBE32(u32) -> 4 bytes`
(`be32enc` from `sysendian.h`). -/
def be32enc (x : Nat) : List Nat :=
  [(x >>> 24) % 256, (x >>> 16) % 256, (x >>> 8) % 256, x % 256]

/-- Modelled from the spec: ByteOrderCodec `encodeBE64(u64) -> 8 bytes`
(`be64enc` from `sysendian.h`). -/
def be64enc (x : Nat) : List Nat :=
  [(x >>> 56) % 256, (x >>> 48) % 256, (x >>> 40) % 256, (x >>> 32) % 256,
   (x >>> 24) % 256, (x >>> 16) % 256, (x >>> 8) % 256, x % 256]

/-- `be32dec_vect(dst, src, len)`: decode a big-endian `len*8`-byte vector
into `len*2` 32-bit words, two words per iteration. -/
def be32dec_vect (src : List Nat) : Nat → List Nat
  | 0 => []
  | n + 1 => be32dec (src.take 4) :: be32dec ((src.drop 4).take 4) :: be32dec_vect (src.drop 8) n

/-- `be32enc_vect(dst, src, len)`: encode `len*2` 32-bit words into a
big-endian `len*8`-byte vector, two words per iteration. -/
def be32enc_vect (src : List Nat) : Nat → List Nat
  | 0 => []
  | n + 1 => be32enc (src.getD 0 0) ++ be32enc (src.getD 1 0) ++ be32enc_vect (src.drop 2) n

/-- SHA256 round constants `Krnd[64]`, written as the C source's sixteen
rows of four constants. -/
def Krnd : List Nat :=
  [0x428a2f98, 0x71374491, 0xb5c0fbcf, 0xe9b5dba5] ++
  [0x3956c25b, 0x59f111f1, 0x923f82a4, 0xab1c5ed5] ++
  [0xd807aa98, 0x12835b01, 0x243185be, 0x550c7dc3] ++
  [0x72be5d74, 0x80deb1fe, 0x9bdc06a7, 0xc19bf174] ++
  [0xe49b69c1, 0xefbe4786, 0x0fc19dc6, 0x240ca1cc] ++
  [0x2de92c6f, 0x4a7484aa, 0x5cb0a9dc, 0x76f988da] ++
  [0x983e5152, 0xa831c66d, 0xb00327c8, 0xbf597fc7] ++
  [0xc6e00bf3, 0xd5a79147, 0x06ca6351, 0x14292967] ++
  [0x27b70a85, 0x2e1b2138, 0x4d2c6dfc, 0x53380d13] ++
  [0x650a7354, 0x766a0abb, 0x81c2c92e, 0x92722c85] ++
  [0xa2bfe8a1, 0xa81a664b, 0xc24b8b70, 0xc76c51a3] ++
  [0xd192e819, 0xd6990624, 0xf40e3585, 0x106aa070] ++
  [0x19a4c116, 0x1e376c08, 0x2748774c, 0x34b0bcb5] ++
  [0x391c0cb3, 0x4ed8aa4a, 0x5b9cca4f, 0x682e6ff3] ++
  [0x748f82ee, 0x78a5636f, 0x84c87814, 0x8cc70208] ++
  [0x90befffa, 0xa4506ceb, 0xbef9a3f7, 0xc67178f2]

/-- One application of the C macro `RND`, rotated by `RNDr`: at in-group
round index `j` (the macro's `i`, `0 ≤ j ≤ 15`), the working registers live
at positions `(64 - j) % 8 .. (71 - j) % 8` of the 8-word array `S`.
`RND` updates `h` in place (`h += S1(e) + Ch(e,f,g) + k; d += h;
h += S0(a) + Maj(a,b,c)`), so only the `h` and `d` slots change. -/
def rndr (S : List Nat) (j wk : Nat) : List Nat :=
  let a := S.getD ((64 - j) % 8) 0
  let b := S.getD ((65 - j) % 8) 0
  let c := S.getD ((66 - j) % 8) 0
  let d := S.getD ((67 - j) % 8) 0
  let e := S.getD ((68 - j) % 8) 0
  let f := S.getD ((69 - j) % 8) 0
  let g := S.getD ((70 - j) % 8) 0
  let h := S.getD ((71 - j) % 8) 0
  let h1 := add32 h (add32 (add32 (S1 e) (Ch e f g)) wk)
  let d1 := add32 d h1
  let h2 := add32 h1 (add32 (S0 a) (Maj a b c))
  (S.set ((71 - j) % 8) h2).set ((67 - j) % 8) d1

/-- The 16 `RNDr(S, W, j, ii)` macro invocations of one round group of
`SHA256_Transform` (the C source unrolls this loop; the unrolling is a
performance technique with identical semantics).  Each round adds
`W[j + ii] + Krnd[j + ii]` (a wrapping `uint32_t` sum) into the round. -/
def doRounds16 (S W : List Nat) (ii : Nat) : List Nat :=
  (List.range 16).foldl
    (fun S j => rndr S j (add32 (W.getD (j + ii) 0) (Krnd.getD (j + ii) 0))) S

/-- C macro `MSCH(W, ii, i)`:
`W[i+ii+16] = s1(W[i+ii+14]) + W[i+ii+9] + s0(W[i+ii+1]) + W[i+ii]`
(left-associated wrapping `uint32_t` sums), with `j = i + ii`. -/
def msch (W : List Nat) (j : Nat) : List Nat :=
  W.set (j + 16)
    (add32 (add32 (add32 (s1 (W.getD (j + 14) 0)) (W.getD (j + 9) 0))
        (s0 (W.getD (j + 1) 0))) (W.getD j 0))

/-- The 16 `MSCH(W, j, ii)` macro invocations performed between two round
groups of `SHA256_Transform` (unrolled in the C source). -/
def doMsch16 (W : List Nat) (ii : Nat) : List Nat :=
  (List.range 16).foldl (fun W j => msch W (ii + j)) W

/-- The message-schedule array `W` as it stands at the end of
`SHA256_Transform`: the first 16 words decoded big-endian from the block
(`be32dec_vect(W, block, 8)`; the remaining 48 entries of the C stack
array start out arbitrary, modelled as 0, and are each written before
being read), then the three `MSCH` batches at `ii = 0, 16, 32`. -/
def transformW (block : List Nat) : List Nat :=
  doMsch16 (doMsch16 (doMsch16 (be32dec_vect block 8 ++ List.replicate 48 0) 0) 16) 32

/-- `SHA256_Transform(state, block, W, S)`: the 256-bit state is
transformed via the 512-bit input block.  Mirrors the C control flow:
decode the first 16 schedule words, copy `state` into the working array
`S`, then four groups of 16 rounds with a 16-word `MSCH` batch between
consecutive groups (the loop breaks at `i == 48` before the last batch),
and finally the feed-forward `state[k] += S[k]`. -/
def SHA256_Transform (state block : List Nat) : List Nat :=
  let W0 := be32dec_vect block 8 ++ List.replicate 48 0
  let Sa := doRounds16 state W0 0
  let W1 := doMsch16 W0 0
  let Sb := doRounds16 Sa W1 16
  let W2 := doMsch16 W1 16
  let Sc := doRounds16 Sb W2 32
  let W3 := doMsch16 W2 32
  let Sd := doRounds16 Sc W3 48
  List.zipWith add32 state Sd

/-- The C constant array `PAD[64]`: `0x80` followed by 63 zero bytes. -/
def PAD : List Nat := 0x80 :: List.replicate 63 0

/-- Magic initialization constants `initial_state[8]`. -/
def initial_state : List Nat :=
  [0x6A09E667, 0xBB67AE85, 0x3C6EF372, 0xA54FF53A,
   0x510E527F, 0x9B05688C, 0x1F83D9AB, 0x5BE0CD19]

/-- The C `SHA256_CTX`: 8-word running state, 64-bit bit count, and the
64-byte partial-block buffer. -/
structure SHA256_CTX where
  state : List Nat
  count : Nat
  buf : List Nat
  deriving Repr, DecidableEq

/-- `SHA256_Init(ctx)`: zero bits processed so far, initialize state.
The C function leaves `ctx->buf` untouched (uninitialized memory). -/
def SHA256_Init (ctx : SHA256_CTX) : SHA256_CTX :=
  { ctx with count := 0, state := initial_state }

/-- The fresh stack-allocated `SHA256_CTX` of `SHA256_Buf`/`SHA256d_Buf`.
Its buffer contents are uninitialized in C and never read before being
written; they are modelled as zeros. -/
def ctx0 : SHA256_CTX := { state := List.replicate 8 0, count := 0, buf := List.replicate 64 0 }

/-- The `while (len >= 64)` loop of `_SHA256_Update`: perform complete
64-byte blocks directly from the input, returning the new state and the
remaining (fewer than 64) trailing bytes. -/
def transformBlocks (st src : List Nat) : List Nat × List Nat :=
  if 64 ≤ src.length then
    transformBlocks (SHA256_Transform st (src.take 64)) (src.drop 64)
  else (st, src)
termination_by src.length
decreasing_by simp; omega

/-- `_SHA256_Update(ctx, in, len, tmp32)`: input `len` bytes into the
context.  Returns immediately on empty input; otherwise updates the bit
count (wrapping `uint64_t`), buffers the input if it does not complete a
block, and else finishes the buffered block, transforms every further
complete block, and buffers the remainder. -/
def _SHA256_Update (ctx : SHA256_CTX) (src : List Nat) : SHA256_CTX :=
  if src.length = 0 then ctx
  else
    let r := (ctx.count >>> 3) % 64
    let count1 := (ctx.count + src.length * 8) % 18446744073709551616
    if src.length < 64 - r then
      { ctx with count := count1,
                 buf := ctx.buf.take r ++ src ++ ctx.buf.drop (r + src.length) }
    else
      let buf1 := ctx.buf.take r ++ src.take (64 - r) ++ ctx.buf.drop 64
      let st1 := SHA256_Transform ctx.state buf1
      let rest := src.drop (64 - r)
      let done := transformBlocks st1 rest
      { state := done.1, count := count1,
        buf := done.2 ++ buf1.drop done.2.length }

/-- `SHA256_Pad(ctx, tmp32)`: append `0x80` and zeros up to byte 56 of the
current block (finishing and compressing the current block first when
fewer than 8 bytes remain in it), write the 64-bit big-endian bit count
into the last 8 bytes, and compress the final block. -/
def SHA256_Pad (ctx : SHA256_CTX) : SHA256_CTX :=
  let r := (ctx.count >>> 3) % 64
  if r < 56 then
    let bufA := ctx.buf.take r ++ PAD.take (56 - r) ++ ctx.buf.drop 56
    let bufB := bufA.take 56 ++ be64enc ctx.count
    { ctx with state := SHA256_Transform ctx.state bufB, buf := bufB }
  else
    let bufA := ctx.buf.take r ++ PAD.take (64 - r)
    let st1 := SHA256_Transform ctx.state bufA
    let bufB := List.replicate 56 0 ++ bufA.drop 56
    let bufC := bufB.take 56 ++ be64enc ctx.count
    { state := SHA256_Transform st1 bufC, count := ctx.count, buf := bufC }

/-- The blocks fed to `SHA256_Transform` by `SHA256_Pad`, in order
(instrumentation of `SHA256_Pad` with the same branch structure). -/
def SHA256_Pad_blocks (ctx : SHA256_CTX) : List (List Nat) :=
  let r := (ctx.count >>> 3) % 64
  if r < 56 then
    let bufA := ctx.buf.take r ++ PAD.take (56 - r) ++ ctx.buf.drop 56
    let bufB := bufA.take 56 ++ be64enc ctx.count
    [bufB]
  else
    let bufA := ctx.buf.take r ++ PAD.take (64 - r)
    let bufB := List.replicate 56 0 ++ bufA.drop 56
    let bufC := bufB.take 56 ++ be64enc ctx.count
    [bufA, bufC]

/-- `_SHA256_Final(digest, ctx, tmp32)`: pad, then write the big-endian
encoding of the state as the 32-byte digest.  Returns the digest together
with the mutated context. -/
def _SHA256_Final (ctx : SHA256_CTX) : List Nat × SHA256_CTX :=
  let ctx1 := SHA256_Pad ctx
  (be32enc_vect ctx1.state 4, ctx1)

/-- `SHA256_Buf(in, len, digest)`: one-shot hash via Init/Update/Final on
a fresh context. -/
def SHA256_Buf (src : List Nat) : List Nat :=
  (_SHA256_Final (_SHA256_Update (SHA256_Init ctx0) src)).1

/-- `SHA256d_Buf(in, len, digest)`: hash, then hash the *digest buffer
read at the original input's length* with the same (re-initialized)
context.  When `len > 32` the C code reads past the 32-byte `digest`
array; the bytes it would find there are supplied by the `oob`
parameter. -/
def SHA256d_Buf (src oob : List Nat) : List Nat :=
  let p1 := _SHA256_Final (_SHA256_Update (SHA256_Init ctx0) src)
  let ctx2 := _SHA256_Update (SHA256_Init p1.2) ((p1.1 ++ oob).take src.length)
  (_SHA256_Final ctx2).1

/-! ### Basic helper lemmas -/

theorem add32_lt (x y : Nat) : add32 x y < 4294967296 := by
  simp [add32]; omega

theorem getD_set_self (l : List Nat) (n a : Nat) (h : n < l.length) :
    (l.set n a).getD n 0 = a := by
  simp [List.getD_eq_getElem?_getD, List.getElem?_set_self h]

theorem getD_set_ne (l : List Nat) (n m a : Nat) (h : n ≠ m) :
    (l.set n a).getD m 0 = l.getD m 0 := by
  simp [List.getD_eq_getElem?_getD, List.getElem?_set_ne h]

theorem length_be32dec_vect (src : List Nat) (n : Nat) :
    (be32dec_vect src n).length = 2 * n := by
  induction n generalizing src with
  | zero => simp [be32dec_vect]
  | succ k ih => simp [be32dec_vect, ih]; omega

theorem length_be32enc : ∀ x : Nat, (be32enc x).length = 4 := by
  intro x; simp [be32enc]

theorem length_be32enc_vect (src : List Nat) (n : Nat) :
    (be32enc_vect src n).length = 8 * n := by
  induction n generalizing src with
  | zero => simp [be32enc_vect]
  | succ k ih => simp [be32enc_vect, be32enc, ih]; omega

theorem length_be64enc (x : Nat) : (be64enc x).length = 8 := by
  simp [be64enc]

/-! ### C2: known-answer tests -/

/-- C2: `SHA256_Buf` applied to the empty input yields the standard
empty-string SHA-256 digest `e3b0c442…b855`, and applied to the 3-byte
input `"abc"` yields `ba7816bf…15ad`. -/
theorem SHA256_Buf_known_answers :
    SHA256_Buf [] =
      [0xe3, 0xb0, 0xc4, 0x42, 0x98, 0xfc, 0x1c, 0x14,
       0x9a, 0xfb, 0xf4, 0xc8, 0x99, 0x6f, 0xb9, 0x24,
       0x27, 0xae, 0x41, 0xe4, 0x64, 0x9b, 0x93, 0x4c,
       0xa4, 0x95, 0x99, 0x1b, 0x78, 0x52, 0xb8, 0x55] ∧
    SHA256_Buf [0x61, 0x62, 0x63] =
      [0xba, 0x78, 0x16, 0xbf, 0x8f, 0x01, 0xcf, 0xea,
       0x41, 0x41, 0x40, 0xde, 0x5d, 0xae, 0x22, 0x23,
       0xb0, 0x03, 0x61, 0xa3, 0x96, 0x17, 0x7a, 0x9c,
       0xb4, 0x10, 0xff, 0x61, 0xf2, 0x00, 0x15, 0xad] := by
  constructor <;> decide

/-! ### C8: empty update is a no-op -/

/-- C8: for every context, `_SHA256_Update` with an input of length 0
returns the context unchanged (state, count and buffer all untouched) and
performs no compression. -/
theorem SHA256_Update_nil_noop (ctx : SHA256_CTX) (src : List Nat)
    (h : src.length = 0) : _SHA256_Update ctx src = ctx := by
  simp [_SHA256_Update, h]

/-- Witness for `SHA256_Update_nil_noop` at a concrete context. -/
theorem SHA256_Update_nil_noop_witness :
    ([] : List Nat).length = 0 ∧ _SHA256_Update ctx0 [] = ctx0 :=
  ⟨rfl, SHA256_Update_nil_noop ctx0 [] rfl⟩

/-! ### The block loop and the streaming invariant -/

theorem transformBlocks_eq (st src : List Nat) :
    transformBlocks st src =
      if 64 ≤ src.length then
        transformBlocks (SHA256_Transform st (src.take 64)) (src.drop 64)
      else (st, src) := by
  rw [transformBlocks]

theorem transformBlocks_small (st src : List Nat) (h : src.length < 64) :
    transformBlocks st src = (st, src) := by
  rw [transformBlocks_eq, if_neg (by omega)]

/-- Appending input to the right of the block loop's argument first runs
the loop on the original input, then continues from its leftover. -/
theorem transformBlocks_append (st M c : List Nat) :
    transformBlocks st (M ++ c) =
      transformBlocks (transformBlocks st M).1 ((transformBlocks st M).2 ++ c) := by
  generalize hn : M.length = n
  induction n using Nat.strong_induction_on generalizing st M with
  | _ n ih =>
    subst hn
    by_cases h : 64 ≤ M.length
    · rw [transformBlocks_eq st (M ++ c),
          if_pos (by simp [List.length_append]; omega),
          List.take_append_of_le_length h, List.drop_append_of_le_length h,
          transformBlocks_eq st M, if_pos h]
      exact ih (M.drop 64).length (by simp; omega) _ _ rfl
    · rw [transformBlocks_small st M (by omega)]

/-- The block loop's leftover is the trailing `length % 64` bytes of its
input. -/
theorem transformBlocks_snd (st M : List Nat) :
    (transformBlocks st M).2 = M.drop (M.length - M.length % 64) ∧
    (transformBlocks st M).2.length = M.length % 64 := by
  generalize hn : M.length = n
  induction n using Nat.strong_induction_on generalizing st M with
  | _ n ih =>
    subst hn
    by_cases h : 64 ≤ M.length
    · rw [transformBlocks_eq st M, if_pos h]
      obtain ⟨h1, h2⟩ := ih (M.drop 64).length (by simp; omega) (SHA256_Transform st (M.take 64)) (M.drop 64) rfl
      constructor
      · rw [h1, List.drop_drop]
        congr 1
        simp [List.length_drop]
        omega
      · rw [h2]
        simp [List.length_drop]
        omega
    · rw [transformBlocks_small st M (by omega)]
      have hm : M.length % 64 = M.length := Nat.mod_eq_of_lt (by omega)
      constructor
      · simp [hm]
      · simp [hm]

/-- The streaming invariant tying a context to the total input `M` fed
since `SHA256_Init`: the bit count, the running state (all complete
64-byte blocks compressed), and the buffered trailing bytes. -/
def ctxInv (ctx : SHA256_CTX) (M : List Nat) : Prop :=
  ctx.buf.length = 64 ∧
  ctx.count = 8 * M.length % 18446744073709551616 ∧
  ctx.state = (transformBlocks initial_state M).1 ∧
  ctx.buf.take (M.length % 64) = (transformBlocks initial_state M).2

theorem count_r (n : Nat) : ((8 * n % 18446744073709551616) >>> 3) % 64 = n % 64 := by
  rw [Nat.shiftRight_eq_div_pow]
  norm_num
  omega

theorem init_inv (ctx : SHA256_CTX) (h : ctx.buf.length = 64) :
    ctxInv (SHA256_Init ctx) [] := by
  refine ⟨h, by simp [SHA256_Init], ?_, ?_⟩ <;>
    simp [SHA256_Init, transformBlocks_small initial_state [] (by simp)]

/-- One `_SHA256_Update` call preserves the streaming invariant. -/
theorem update_inv (ctx : SHA256_CTX) (M c : List Nat) (h : ctxInv ctx M) :
    ctxInv (_SHA256_Update ctx c) (M ++ c) := by
  obtain ⟨hbuf, hcount, hstate, htake⟩ := h
  by_cases hc : c.length = 0
  · rw [List.eq_nil_of_length_eq_zero hc] at *
    simpa [_SHA256_Update] using ⟨hbuf, hcount, hstate, htake⟩
  · have hr : (ctx.count >>> 3) % 64 = M.length % 64 := by rw [hcount]; exact count_r _
    have hrlt : M.length % 64 < 64 := Nat.mod_lt _ (by omega)
    have hTBsnd := transformBlocks_snd initial_state M
    have hlenP2 : (transformBlocks initial_state M).2.length = M.length % 64 := hTBsnd.2
    have htakelen : (ctx.buf.take (M.length % 64)).length = M.length % 64 := by
      simp [List.length_take]; omega
    have happ := transformBlocks_append initial_state M c
    rw [_SHA256_Update, if_neg hc, hr]
    by_cases hsmall : c.length < 64 - M.length % 64
    · rw [if_pos hsmall]
      have hP2c : ((transformBlocks initial_state M).2 ++ c).length < 64 := by
        simp [List.length_append]; omega
      rw [transformBlocks_small _ _ hP2c] at happ
      have hmod : (M ++ c).length % 64 = M.length % 64 + c.length := by
        simp [List.length_append]; omega
      refine ⟨?_, ?_, ?_, ?_⟩
      · simp [List.length_append, List.length_take, List.length_drop]; omega
      · rw [hcount]; simp [List.length_append]; omega
      · rw [happ]; exact hstate
      · dsimp only
        rw [happ, hmod, List.take_left' (by simp [List.length_take]; omega), htake]
    · rw [if_neg hsmall]
      dsimp only
      have hdrop64 : ctx.buf.drop 64 = [] := by
        apply List.eq_nil_of_length_eq_zero; simp [List.length_drop, hbuf]
      have hbuf1 : ctx.buf.take (M.length % 64) ++ c.take (64 - M.length % 64) ++ ctx.buf.drop 64
          = (transformBlocks initial_state M).2 ++ c.take (64 - M.length % 64) := by
        rw [hdrop64, htake]; simp
      have hP2c : 64 ≤ ((transformBlocks initial_state M).2 ++ c).length := by
        simp [List.length_append]; omega
      rw [transformBlocks_eq _ ((transformBlocks initial_state M).2 ++ c), if_pos hP2c] at happ
      have htk : ((transformBlocks initial_state M).2 ++ c).take 64
          = (transformBlocks initial_state M).2 ++ c.take (64 - M.length % 64) := by
        rw [List.take_append_eq_append_take, List.take_of_length_le (by omega), hlenP2]
      have hdp : ((transformBlocks initial_state M).2 ++ c).drop 64
          = c.drop (64 - M.length % 64) := by
        rw [List.drop_append_eq_append_drop, hlenP2,
            List.drop_eq_nil_of_le (by omega)]
        simp
      rw [htk, hdp] at happ
      rw [hbuf1, hstate]
      have hsnd2 := transformBlocks_snd
        (SHA256_Transform (transformBlocks initial_state M).1
          ((transformBlocks initial_state M).2 ++ c.take (64 - M.length % 64)))
        (c.drop (64 - M.length % 64))
      have hlfto : (transformBlocks
          (SHA256_Transform (transformBlocks initial_state M).1
            ((transformBlocks initial_state M).2 ++ c.take (64 - M.length % 64)))
          (c.drop (64 - M.length % 64))).2.length = (M ++ c).length % 64 := by
        rw [hsnd2.2]
        simp [List.length_drop, List.length_append]
        omega
      have hlftolt : (transformBlocks
          (SHA256_Transform (transformBlocks initial_state M).1
            ((transformBlocks initial_state M).2 ++ c.take (64 - M.length % 64)))
          (c.drop (64 - M.length % 64))).2.length < 64 := by
        rw [hlfto]; exact Nat.mod_lt _ (by omega)
      refine ⟨?_, ?_, ?_, ?_⟩
      · simp only [List.length_append, List.length_drop, List.length_take, hlenP2]
        omega
      · rw [hcount]; simp [List.length_append]; omega
      · rw [happ]
      · rw [happ, ← hlfto, List.take_left' rfl]

theorem foldl_update_inv (cs : List (List Nat)) (ctx : SHA256_CTX) (M : List Nat)
    (h : ctxInv ctx M) : ctxInv (cs.foldl _SHA256_Update ctx) (M ++ cs.flatten) := by
  induction cs generalizing ctx M with
  | nil => simpa using h
  | cons c cs ih =>
    rw [List.foldl_cons, List.flatten_cons, ← List.append_assoc]
    exact ih _ _ (update_inv _ _ _ h)

/-! ### Padding and finalization -/

theorem PAD_take (k : Nat) (h1 : 1 ≤ k) (h2 : k ≤ 64) :
    PAD.take k = 0x80 :: List.replicate (k - 1) 0 := by
  obtain ⟨m, rfl⟩ : ∃ m, k = m + 1 := ⟨k - 1, by omega⟩
  have hp : PAD = 0x80 :: List.replicate 63 0 := rfl
  rw [hp, List.take_succ_cons, List.take_replicate,
    Nat.min_eq_left (show m ≤ 63 by omega)]
  simp

/-- The state after `SHA256_Pad`, written as one or two explicit
`SHA256_Transform` applications on blocks built from the buffered prefix,
the pad bytes, and the big-endian bit count. -/
theorem SHA256_Pad_state (ctx : SHA256_CTX) (h : ctx.buf.length = 64) :
    (SHA256_Pad ctx).state =
      (if (ctx.count >>> 3) % 64 < 56 then
        SHA256_Transform ctx.state
          (ctx.buf.take ((ctx.count >>> 3) % 64) ++ PAD.take (56 - (ctx.count >>> 3) % 64)
            ++ be64enc ctx.count)
      else
        SHA256_Transform
          (SHA256_Transform ctx.state
            (ctx.buf.take ((ctx.count >>> 3) % 64) ++ PAD.take (64 - (ctx.count >>> 3) % 64)))
          (List.replicate 56 0 ++ be64enc ctx.count)) := by
  have hrlt : (ctx.count >>> 3) % 64 < 64 := Nat.mod_lt _ (by omega)
  rw [SHA256_Pad]
  by_cases hb : (ctx.count >>> 3) % 64 < 56
  · rw [if_pos hb, if_pos hb]
    dsimp only
    congr 2
    rw [List.take_left'
      (by simp [List.length_take, List.length_append, h, PAD]; omega)]
  · rw [if_neg hb, if_neg hb]
    dsimp only
    congr 2

theorem SHA256_Pad_buf_length (ctx : SHA256_CTX) (h : ctx.buf.length = 64) :
    (SHA256_Pad ctx).buf.length = 64 := by
  have hrlt : (ctx.count >>> 3) % 64 < 64 := Nat.mod_lt _ (by omega)
  rw [SHA256_Pad]
  by_cases hb : (ctx.count >>> 3) % 64 < 56 <;>
    (simp [hb, List.length_append, List.length_take, List.length_drop, be64enc, PAD]; try omega)

theorem SHA256_Pad_count (ctx : SHA256_CTX) : (SHA256_Pad ctx).count = ctx.count := by
  rw [SHA256_Pad]
  by_cases hb : (ctx.count >>> 3) % 64 < 56 <;> simp [hb]

/-- The digest emitted by `_SHA256_Final` depends only on the state, the
count, and the `count/8 mod 64` buffered bytes of the context. -/
theorem final_congr (c1 c2 : SHA256_CTX) (h1 : c1.buf.length = 64) (h2 : c2.buf.length = 64)
    (hs : c1.state = c2.state) (hc : c1.count = c2.count)
    (hb : c1.buf.take ((c1.count >>> 3) % 64) = c2.buf.take ((c2.count >>> 3) % 64)) :
    (_SHA256_Final c1).1 = (_SHA256_Final c2).1 := by
  rw [_SHA256_Final, _SHA256_Final]
  dsimp only
  congr 1
  rw [hc] at hb
  rw [SHA256_Pad_state c1 h1, SHA256_Pad_state c2 h2, hs, hc, hb]

/-! ### C1: streaming equivalence -/

/-- C1: for every byte sequence and every partition of it into chunks,
`SHA256_Init`, one `_SHA256_Update` per chunk in order, then
`_SHA256_Final` yields the same digest as one `SHA256_Buf` call on the
whole sequence — and that digest is 32 bytes long.  (`ctx` is the
arbitrary, possibly garbage-filled context the stream starts from.) -/
theorem streaming_equivalence (cs : List (List Nat)) (ctx : SHA256_CTX)
    (hbuf : ctx.buf.length = 64) :
    (_SHA256_Final (cs.foldl _SHA256_Update (SHA256_Init ctx))).1 = SHA256_Buf cs.flatten ∧
    (SHA256_Buf cs.flatten).length = 32 := by
  have h1 : ctxInv (cs.foldl _SHA256_Update (SHA256_Init ctx)) cs.flatten := by
    simpa using foldl_update_inv cs (SHA256_Init ctx) [] (init_inv ctx hbuf)
  have h2 : ctxInv (_SHA256_Update (SHA256_Init ctx0) cs.flatten) cs.flatten := by
    have := foldl_update_inv [cs.flatten] (SHA256_Init ctx0) [] (init_inv ctx0 (by simp [ctx0]))
    simpa using this
  obtain ⟨h1b, h1c, h1s, h1t⟩ := h1
  obtain ⟨h2b, h2c, h2s, h2t⟩ := h2
  constructor
  · apply final_congr _ _ h1b h2b (h1s.trans h2s.symm) (h1c.trans h2c.symm)
    rw [h1c, h2c, count_r, h1t, h2t]
  · rw [SHA256_Buf, _SHA256_Final]
    exact length_be32enc_vect _ 4

/-- Witness for `streaming_equivalence`: hashing `"abc"` as the chunks
`"a"`, `"bc"` matches the one-shot digest. -/
theorem streaming_equivalence_witness :
    (_SHA256_Final ([[0x61], [0x62, 0x63]].foldl _SHA256_Update (SHA256_Init ctx0))).1 =
      SHA256_Buf [[0x61], [0x62, 0x63]].flatten ∧
    (SHA256_Buf [[0x61], [0x62, 0x63]].flatten).length = 32 :=
  streaming_equivalence [[0x61], [0x62, 0x63]] ctx0 (by simp [ctx0])

/-! ### C7: context invariant after Init and Updates -/

/-- C7: after `SHA256_Init` and any sequence of `_SHA256_Update` calls,
`count` is 8 times the number of bytes fed (as a wrapping `uint64_t`),
and the buffer holds exactly `(count/8) mod 64` buffered bytes — the
trailing bytes of the concatenated input past the last complete 64-byte
block — always fewer than 64. -/
theorem context_invariant (cs : List (List Nat)) (ctx : SHA256_CTX)
    (hbuf : ctx.buf.length = 64) :
    (cs.foldl _SHA256_Update (SHA256_Init ctx)).count
        = 8 * cs.flatten.length % 18446744073709551616 ∧
    ((cs.foldl _SHA256_Update (SHA256_Init ctx)).count >>> 3) % 64
        = cs.flatten.length % 64 ∧
    cs.flatten.length % 64 < 64 ∧
    (cs.foldl _SHA256_Update (SHA256_Init ctx)).buf.take (cs.flatten.length % 64)
        = cs.flatten.drop (cs.flatten.length - cs.flatten.length % 64) := by
  have h1 : ctxInv (cs.foldl _SHA256_Update (SHA256_Init ctx)) cs.flatten := by
    simpa using foldl_update_inv cs (SHA256_Init ctx) [] (init_inv ctx hbuf)
  obtain ⟨h1b, h1c, h1s, h1t⟩ := h1
  exact ⟨h1c, by rw [h1c, count_r], Nat.mod_lt _ (by omega),
    by rw [h1t, (transformBlocks_snd initial_state cs.flatten).1]⟩

/-- Witness for `context_invariant` on a concrete chunk sequence. -/
theorem context_invariant_witness :
    (([[0x61], [0x62, 0x63]].foldl _SHA256_Update (SHA256_Init ctx0)).count
        = 8 * [[0x61], [0x62, 0x63]].flatten.length % 18446744073709551616) ∧
    ([[0x61], [0x62, 0x63]].foldl _SHA256_Update (SHA256_Init ctx0)).buf.take
        ([[0x61], [0x62, 0x63]].flatten.length % 64)
        = [[0x61], [0x62, 0x63]].flatten.drop
            ([[0x61], [0x62, 0x63]].flatten.length - [[0x61], [0x62, 0x63]].flatten.length % 64) :=
  ⟨(context_invariant [[0x61], [0x62, 0x63]] ctx0 (by simp [ctx0])).1,
   (context_invariant [[0x61], [0x62, 0x63]] ctx0 (by simp [ctx0])).2.2.2⟩

/-! ### C3/C10: the double hash -/

/-- Init/Update/Final starting from any context with a 64-byte buffer
(whatever its leftover contents) produces the one-shot digest. -/
theorem buf_from_ctx (ctx : SHA256_CTX) (hbuf : ctx.buf.length = 64) (src : List Nat) :
    (_SHA256_Final (_SHA256_Update (SHA256_Init ctx) src)).1 = SHA256_Buf src := by
  have hinv1 : ctxInv (_SHA256_Update (SHA256_Init ctx) src) src := by
    simpa using update_inv (SHA256_Init ctx) [] src (init_inv ctx hbuf)
  have hinv2 : ctxInv (_SHA256_Update (SHA256_Init ctx0) src) src := by
    simpa using update_inv (SHA256_Init ctx0) [] src (init_inv ctx0 (by simp [ctx0]))
  obtain ⟨h1b, h1c, h1s, h1t⟩ := hinv1
  obtain ⟨h2b, h2c, h2s, h2t⟩ := hinv2
  rw [SHA256_Buf]
  apply final_congr _ _ h1b h2b (h1s.trans h2s.symm) (h1c.trans h2c.symm)
  rw [h1c, h2c, count_r, h1t, h2t]

/-- C3: `SHA256d_Buf` feeds `len(M)` bytes starting at the first digest
into the second pass, so for `len(M) ≤ 32` it hashes the first `len(M)`
bytes of `d1 = Hash(M)`; in particular it equals `Hash(Hash(M))` when
`len(M) = 32`. -/
theorem SHA256d_Buf_second_pass (msg oob : List Nat) (h : msg.length ≤ 32) :
    SHA256d_Buf msg oob = SHA256_Buf ((SHA256_Buf msg).take msg.length) ∧
    (msg.length = 32 → SHA256d_Buf msg oob = SHA256_Buf (SHA256_Buf msg)) := by
  have hd1len : (SHA256_Buf msg).length = 32 := by
    rw [SHA256_Buf, _SHA256_Final]; exact length_be32enc_vect _ 4
  have hinvA : ctxInv (_SHA256_Update (SHA256_Init ctx0) msg) msg := by
    simpa using update_inv (SHA256_Init ctx0) [] msg (init_inv ctx0 (by simp [ctx0]))
  have hbufP : (_SHA256_Final (_SHA256_Update (SHA256_Init ctx0) msg)).2.buf.length = 64 := by
    rw [_SHA256_Final]; exact SHA256_Pad_buf_length _ hinvA.1
  have hmain : SHA256d_Buf msg oob = SHA256_Buf ((SHA256_Buf msg).take msg.length) := by
    rw [SHA256d_Buf]
    rw [show (_SHA256_Final (_SHA256_Update (SHA256_Init ctx0) msg)).1 = SHA256_Buf msg from rfl,
        List.take_append_of_le_length (by omega)]
    exact buf_from_ctx _ hbufP _
  refine ⟨hmain, fun h32 => ?_⟩
  rw [hmain, h32, hd1len.symm, List.take_of_length_le (by omega)]

/-- Witness for `SHA256d_Buf_second_pass` at a concrete 3-byte input. -/
theorem SHA256d_Buf_second_pass_witness :
    SHA256d_Buf [0, 1, 2] [] = SHA256_Buf ((SHA256_Buf [0, 1, 2]).take [0, 1, 2].length) :=
  (SHA256d_Buf_second_pass [0, 1, 2] [] (by decide)).1

/-- C10: `SHA256d_Buf` on the empty input returns the SHA-256 digest of
the empty string — equal to `SHA256_Buf []`, not to the double hash of
the empty string — for every possible content of the out-of-bounds bytes
(the second pass consumes 0 bytes, so none of them are read). -/
theorem SHA256d_Buf_nil (oob : List Nat) :
    SHA256d_Buf [] oob = SHA256_Buf [] ∧
    SHA256d_Buf [] oob ≠ SHA256_Buf (SHA256_Buf []) := by
  have hoob : SHA256d_Buf [] oob = SHA256d_Buf [] [] := by
    simp [SHA256d_Buf]
  rw [hoob]
  constructor
  · decide
  · decide

/-! ### C4/C9: padding behaviour -/

/-- `SHA256_Pad`'s state update is the left fold of `SHA256_Transform`
over the blocks recorded by `SHA256_Pad_blocks`. -/
theorem SHA256_Pad_blocks_spec (ctx : SHA256_CTX) :
    (SHA256_Pad ctx).state = (SHA256_Pad_blocks ctx).foldl SHA256_Transform ctx.state := by
  rw [SHA256_Pad, SHA256_Pad_blocks]
  by_cases hb : (ctx.count >>> 3) % 64 < 56 <;> simp [hb]

/-- C4 (amended): with buffered fill `r = (count/8) mod 64`, `SHA256_Pad`
appends `0x80` then zeros, writes the pre-padding bit count big-endian
into the last 8 bytes of the final block, and runs the compression
function exactly once when `r < 56` and exactly twice when `r ≥ 56`
(so 55-byte messages take the one-compression path while 56- and 63-byte
messages take the two-compression path). -/
theorem SHA256_Pad_behaviour (ctx : SHA256_CTX) (h : ctx.buf.length = 64) :
    (SHA256_Pad ctx).state = (SHA256_Pad_blocks ctx).foldl SHA256_Transform ctx.state ∧
    SHA256_Pad_blocks ctx =
      (if (ctx.count >>> 3) % 64 < 56 then
        [ctx.buf.take ((ctx.count >>> 3) % 64)
          ++ 0x80 :: List.replicate (55 - (ctx.count >>> 3) % 64) 0 ++ be64enc ctx.count]
      else
        [ctx.buf.take ((ctx.count >>> 3) % 64)
            ++ 0x80 :: List.replicate (63 - (ctx.count >>> 3) % 64) 0,
         List.replicate 56 0 ++ be64enc ctx.count]) ∧
    (SHA256_Pad_blocks ctx).length = (if (ctx.count >>> 3) % 64 < 56 then 1 else 2) := by
  have hrlt : (ctx.count >>> 3) % 64 < 64 := Nat.mod_lt _ (by omega)
  refine ⟨SHA256_Pad_blocks_spec ctx, ?_, ?_⟩
  · rw [SHA256_Pad_blocks]
    by_cases hb : (ctx.count >>> 3) % 64 < 56
    · rw [if_pos hb, if_pos hb]
      dsimp only
      rw [List.take_left'
        (by simp [List.length_take, List.length_append, h, PAD]; omega)]
      rw [PAD_take (56 - (ctx.count >>> 3) % 64) (by omega) (by omega),
        show 56 - (ctx.count >>> 3) % 64 - 1 = 55 - (ctx.count >>> 3) % 64 from by omega]
    · rw [if_neg hb, if_neg hb]
      dsimp only
      rw [List.take_left' (by simp)]
      rw [PAD_take (64 - (ctx.count >>> 3) % 64) (by omega) (by omega),
        show 64 - (ctx.count >>> 3) % 64 - 1 = 63 - (ctx.count >>> 3) % 64 from by omega]
  · rw [SHA256_Pad_blocks]
    by_cases hb : (ctx.count >>> 3) % 64 < 56 <;> simp [hb]

/-- Witness for `SHA256_Pad_behaviour` at a concrete context. -/
theorem SHA256_Pad_behaviour_witness :
    (SHA256_Pad ctx0).state = (SHA256_Pad_blocks ctx0).foldl SHA256_Transform ctx0.state ∧
    (SHA256_Pad_blocks ctx0).length = (if (ctx0.count >>> 3) % 64 < 56 then 1 else 2) :=
  ⟨(SHA256_Pad_behaviour ctx0 (by simp [ctx0])).1,
   (SHA256_Pad_behaviour ctx0 (by simp [ctx0])).2.2⟩

/-- C4 counterexample: after feeding a 63-byte message the buffered fill
is `r = 63 ≥ 56`, so — contrary to the claim's parenthetical — a 63-byte
message takes the two-compression padding path. -/
theorem SHA256_Pad_63_bytes_two_compressions :
    ((_SHA256_Update (SHA256_Init ctx0) (List.replicate 63 0)).count >>> 3) % 64 = 63 ∧
    ¬ (((_SHA256_Update (SHA256_Init ctx0) (List.replicate 63 0)).count >>> 3) % 64 < 56) ∧
    (SHA256_Pad_blocks (_SHA256_Update (SHA256_Init ctx0) (List.replicate 63 0))).length = 2 := by
  refine ⟨by decide, by decide, by decide⟩

/-- C9: `SHA256_Pad` (and hence `_SHA256_Final`) leaves `count`
unchanged, and the last 8 bytes of the final padded block are the
big-endian encoding of the bit count at entry. -/
theorem SHA256_Pad_count_frame (ctx : SHA256_CTX) (h : ctx.buf.length = 64) :
    (SHA256_Pad ctx).count = ctx.count ∧
    (_SHA256_Final ctx).2.count = ctx.count ∧
    (SHA256_Pad ctx).buf.drop 56 = be64enc ctx.count := by
  have hrlt : (ctx.count >>> 3) % 64 < 64 := Nat.mod_lt _ (by omega)
  refine ⟨SHA256_Pad_count ctx, by rw [_SHA256_Final]; exact SHA256_Pad_count ctx, ?_⟩
  rw [SHA256_Pad]
  by_cases hb : (ctx.count >>> 3) % 64 < 56
  · rw [if_pos hb]
    dsimp only
    rw [List.drop_left'
      (by simp [List.length_take, List.length_append, h, PAD]; omega)]
  · rw [if_neg hb]
    dsimp only
    rw [List.drop_left' (by simp)]

/-- Witness for `SHA256_Pad_count_frame` at a concrete context. -/
theorem SHA256_Pad_count_frame_witness :
    (SHA256_Pad ctx0).count = ctx0.count ∧
    (SHA256_Pad ctx0).buf.drop 56 = be64enc ctx0.count :=
  ⟨(SHA256_Pad_count_frame ctx0 (by simp [ctx0])).1,
   (SHA256_Pad_count_frame ctx0 (by simp [ctx0])).2.2⟩

/-! ### Specification-side compression (for C5/C6)

These definitions follow the wording of the specification: the standard
round function with `Ch(x,y,z) = (x∧y)⊕(¬x∧z)`,
`Maj(x,y,z) = (x∧y)∨(x∧z)∨(y∧z)`, explicitly rotated working variables
`a..h`, a single fold over rounds `0..63`, and the schedule recurrence
`w[i] = σ1(w[i-2]) + w[i-7] + σ0(w[i-15]) + w[i-16] (mod 2^32)`.
The Σ/σ rotate-xor combinations are textually identical in spec and code
and are shared (`S0`, `S1`, `s0`, `s1`). -/

/-- 32-bit complement, for the spec's `¬x` inside `Ch`. -/
def not32 (x : Nat) : Nat := x ^^^ 4294967295

/-- The spec's choice function `Ch(x,y,z) = (x∧y)⊕(¬x∧z)`. -/
def chSpec (x y z : Nat) : Nat := (x &&& y) ^^^ (not32 x &&& z)

/-- The spec's majority function `Maj(x,y,z) = (x∧y)∨(x∧z)∨(y∧z)`. -/
def majSpec (x y z : Nat) : Nat := (x &&& y) ||| (x &&& z) ||| (y &&& z)

/-- The eight working variables `a..h` of the spec's compression. -/
@[ext]
structure Regs where
  a : Nat
  b : Nat
  c : Nat
  d : Nat
  e : Nat
  f : Nat
  g : Nat
  h : Nat
  deriving Repr, DecidableEq

/-- One spec round: `T1 = h + Σ1(e) + Ch(e,f,g) + K[i] + w[i]`,
`T2 = Σ0(a) + Maj(a,b,c)`, then rotate
`h←g, g←f, f←e, e←d+T1, d←c, c←b, b←a, a←T1+T2` (mod `2^32`). -/
def roundSpec (r : Regs) (k w : Nat) : Regs :=
  let T1 := (r.h + S1 r.e + chSpec r.e r.f r.g + k + w) % 4294967296
  let T2 := (S0 r.a + majSpec r.a r.b r.c) % 4294967296
  { a := (T1 + T2) % 4294967296, b := r.a, c := r.b, d := r.c,
    e := (r.d + T1) % 4294967296, f := r.e, g := r.f, h := r.g }

/-- The spec's message schedule as a recursive function: words `0..15`
are the decoded block words, word `i ≥ 16` is
`σ1(w[i-2]) + w[i-7] + σ0(w[i-15]) + w[i-16] (mod 2^32)`. -/
def Wfun (f16 : List Nat) (i : Nat) : Nat :=
  if _h : i < 16 then f16.getD i 0
  else (s1 (Wfun f16 (i - 2)) + Wfun f16 (i - 7) + s0 (Wfun f16 (i - 15))
        + Wfun f16 (i - 16)) % 4294967296
termination_by i
decreasing_by all_goals omega

/-- The spec's 64-word schedule of a block, built word by word. -/
def scheduleSpec (block : List Nat) : List Nat :=
  (List.range 48).foldl
    (fun w i => w ++ [(s1 (w.getD (i + 14) 0) + w.getD (i + 9) 0
       + s0 (w.getD (i + 1) 0) + w.getD i 0) % 4294967296])
    (be32dec_vect block 8)

/-- Load an 8-word state into the working variables. -/
def regsOfState (st : List Nat) : Regs :=
  { a := st.getD 0 0, b := st.getD 1 0, c := st.getD 2 0, d := st.getD 3 0,
    e := st.getD 4 0, f := st.getD 5 0, g := st.getD 6 0, h := st.getD 7 0 }

/-- The working variables written out as an 8-word list. -/
def regsToList (r : Regs) : List Nat := [r.a, r.b, r.c, r.d, r.e, r.f, r.g, r.h]

/-- The spec's compression: 64 rounds in one fold over `i = 0..63`
followed by the element-wise feed-forward addition modulo `2^32`. -/
def compressSpec (state ws : List Nat) : List Nat :=
  List.zipWith add32 state
    (regsToList ((List.range 64).foldl
      (fun r i => roundSpec r (Krnd.getD i 0) (ws.getD i 0)) (regsOfState state)))

/-- The spec-side block transform: compression driven by the spec
schedule. -/
def SHA256_Transform_spec (state block : List Nat) : List Nat :=
  compressSpec state (scheduleSpec block)

/-- The registers held at positions `(64-j) % 8 .. (71-j) % 8` of the
code's rotating 8-word array, as the spec's working-variable tuple. -/
def regsOfList (S : List Nat) (j : Nat) : Regs :=
  { a := S.getD ((64 - j) % 8) 0, b := S.getD ((65 - j) % 8) 0,
    c := S.getD ((66 - j) % 8) 0, d := S.getD ((67 - j) % 8) 0,
    e := S.getD ((68 - j) % 8) 0, f := S.getD ((69 - j) % 8) 0,
    g := S.getD ((70 - j) % 8) 0, h := S.getD ((71 - j) % 8) 0 }

/-! ### Bitwise equivalence of the optimized Ch and Maj -/

theorem Maj_eq_majSpec (x y z : Nat) : Maj x y z = majSpec x y z := by
  apply Nat.eq_of_testBit_eq
  intro i
  simp only [Maj, majSpec, Nat.testBit_land, Nat.testBit_lor]
  cases x.testBit i <;> cases y.testBit i <;> cases z.testBit i <;> rfl

theorem Ch_eq_chSpec (x y z : Nat) (hz : z < 4294967296) : Ch x y z = chSpec x y z := by
  apply Nat.eq_of_testBit_eq
  intro i
  have hmask : (4294967295 : Nat) = 2 ^ 32 - 1 := by norm_num
  simp only [Ch, chSpec, not32, Nat.testBit_xor, Nat.testBit_land, hmask,
    Nat.testBit_two_pow_sub_one]
  by_cases hi : i < 32
  · simp only [decide_eq_true hi]
    cases x.testBit i <;> cases y.testBit i <;> cases z.testBit i <;> rfl
  · have hzb : z.testBit i = false := by
      apply Nat.testBit_lt_two_pow
      calc z < 2 ^ 32 := by norm_num at hz ⊢; omega
        _ ≤ 2 ^ i := Nat.pow_le_pow_right (by norm_num) (by omega)
    simp only [decide_eq_false hi, hzb]
    cases x.testBit i <;> cases y.testBit i <;> rfl

/-! ### One code round simulates one spec round -/

/-- A single `RNDr` application at in-group index `j` corresponds exactly
to one spec round on the rotated register view, and keeps all eight array
words below `2^32`. -/
theorem rndr_step (S : List Nat) (j wv kv : Nat) (h8 : S.length = 8) (hj : j < 16)
    (hb : ∀ x ∈ S, x < 4294967296) :
    (rndr S j (add32 wv kv)).length = 8 ∧
    (∀ x ∈ rndr S j (add32 wv kv), x < 4294967296) ∧
    regsOfList (rndr S j (add32 wv kv)) (j + 1) = roundSpec (regsOfList S j) kv wv := by
  have hglt : S.getD ((70 - j) % 8) 0 < 4294967296 := by
    have hmem : S.getD ((70 - j) % 8) 0 ∈ S := by
      rw [List.getD_eq_getElem _ _ (by omega)]
      exact List.getElem_mem _
    exact hb _ hmem
  refine ⟨by simp [rndr, h8], ?_, ?_⟩
  · intro x hx
    rw [rndr] at hx
    rcases List.mem_or_eq_of_mem_set hx with hx' | rfl
    · rcases List.mem_or_eq_of_mem_set hx' with hx'' | rfl
      · exact hb x hx''
      · exact add32_lt _ _
    · exact add32_lt _ _
  · rw [rndr]
    ext
    · simp only [regsOfList, roundSpec]
      rw [show (64 - (j + 1)) % 8 = (71 - j) % 8 from by omega,
        getD_set_ne _ _ _ _ (by omega),
        getD_set_self _ _ _ (by simp only [List.length_set, h8]; omega),
        Ch_eq_chSpec _ _ _ hglt, Maj_eq_majSpec]
      simp only [add32]
      omega
    · simp only [regsOfList, roundSpec]
      rw [show (65 - (j + 1)) % 8 = (64 - j) % 8 from by omega,
        getD_set_ne _ _ _ _ (by omega), getD_set_ne _ _ _ _ (by omega)]
    · simp only [regsOfList, roundSpec]
      rw [show (66 - (j + 1)) % 8 = (65 - j) % 8 from by omega,
        getD_set_ne _ _ _ _ (by omega), getD_set_ne _ _ _ _ (by omega)]
    · simp only [regsOfList, roundSpec]
      rw [show (67 - (j + 1)) % 8 = (66 - j) % 8 from by omega,
        getD_set_ne _ _ _ _ (by omega), getD_set_ne _ _ _ _ (by omega)]
    · simp only [regsOfList, roundSpec]
      rw [show (68 - (j + 1)) % 8 = (67 - j) % 8 from by omega,
        getD_set_self _ _ _ (by simp only [List.length_set, h8]; omega),
        Ch_eq_chSpec _ _ _ hglt]
      simp only [add32]
      omega
    · simp only [regsOfList, roundSpec]
      rw [show (69 - (j + 1)) % 8 = (68 - j) % 8 from by omega,
        getD_set_ne _ _ _ _ (by omega), getD_set_ne _ _ _ _ (by omega)]
    · simp only [regsOfList, roundSpec]
      rw [show (70 - (j + 1)) % 8 = (69 - j) % 8 from by omega,
        getD_set_ne _ _ _ _ (by omega), getD_set_ne _ _ _ _ (by omega)]
    · simp only [regsOfList, roundSpec]
      rw [show (71 - (j + 1)) % 8 = (70 - j) % 8 from by omega,
        getD_set_ne _ _ _ _ (by omega), getD_set_ne _ _ _ _ (by omega)]

/-! ### Round groups -/

/-- The first `k` rounds of the group of `doRounds16` starting at schedule
offset `ii`. -/
def codeRounds (S W : List Nat) (ii k : Nat) : List Nat :=
  (List.range k).foldl
    (fun S j => rndr S j (add32 (W.getD (j + ii) 0) (Krnd.getD (j + ii) 0))) S

/-- The spec rounds `ii .. ii+k-1` as a fold of `roundSpec`. -/
def specRounds (r : Regs) (W : List Nat) (ii k : Nat) : Regs :=
  (List.range k).foldl
    (fun r j => roundSpec r (Krnd.getD (j + ii) 0) (W.getD (j + ii) 0)) r

theorem doRounds16_eq_codeRounds (S W : List Nat) (ii : Nat) :
    doRounds16 S W ii = codeRounds S W ii 16 := rfl

theorem codeRounds_succ (S W : List Nat) (ii k : Nat) :
    codeRounds S W ii (k + 1) =
      rndr (codeRounds S W ii k) k
        (add32 (W.getD (k + ii) 0) (Krnd.getD (k + ii) 0)) := by
  rw [codeRounds, codeRounds, List.range_succ, List.foldl_append]
  rfl

theorem specRounds_succ (r : Regs) (W : List Nat) (ii k : Nat) :
    specRounds r W ii (k + 1) =
      roundSpec (specRounds r W ii k) (Krnd.getD (k + ii) 0) (W.getD (k + ii) 0) := by
  rw [specRounds, specRounds, List.range_succ, List.foldl_append]
  rfl

/-- A 16-round group of the code simulates 16 spec rounds. -/
theorem codeRounds_sim (S W : List Nat) (ii : Nat) (h8 : S.length = 8)
    (hb : ∀ x ∈ S, x < 4294967296) (k : Nat) (hk : k ≤ 16) :
    (codeRounds S W ii k).length = 8 ∧
    (∀ x ∈ codeRounds S W ii k, x < 4294967296) ∧
    regsOfList (codeRounds S W ii k) k = specRounds (regsOfList S 0) W ii k := by
  induction k with
  | zero => exact ⟨h8, hb, rfl⟩
  | succ k ih =>
    obtain ⟨hl, hbk, hr⟩ := ih (by omega)
    have hstep := rndr_step (codeRounds S W ii k) k (W.getD (k + ii) 0)
      (Krnd.getD (k + ii) 0) hl (by omega) hbk
    rw [codeRounds_succ, specRounds_succ, ← hr]
    exact ⟨hstep.1, hstep.2.1, hstep.2.2⟩

/-- After a full 16-round group the rotating register view is back in
positional order. -/
theorem regsOfList_16 (S : List Nat) : regsOfList S 16 = regsOfList S 0 := rfl

/-- Splitting a run of spec rounds. -/
theorem specRounds_add (r : Regs) (W : List Nat) (ii k1 k2 : Nat) :
    specRounds r W ii (k1 + k2) = specRounds (specRounds r W ii k1) W (ii + k1) k2 := by
  rw [specRounds, List.range_add, List.foldl_append, List.foldl_map, specRounds, specRounds]
  congr 1
  funext s j
  rw [show k1 + j + ii = j + (ii + k1) from by omega]

/-- Spec rounds only read the schedule at indices `ii .. ii+k-1`. -/
theorem specRounds_congr (r : Regs) (W W' : List Nat) (ii k : Nat)
    (hw : ∀ j, j < k → W.getD (j + ii) 0 = W'.getD (j + ii) 0) :
    specRounds r W ii k = specRounds r W' ii k := by
  induction k with
  | zero => rfl
  | succ k ih =>
    rw [specRounds_succ, specRounds_succ, ih (fun j hj => hw j (by omega)),
      hw k (by omega)]

/-- Code rounds only read the schedule at indices `ii .. ii+k-1`. -/
theorem codeRounds_congr (S W W' : List Nat) (ii k : Nat)
    (hw : ∀ j, j < k → W.getD (j + ii) 0 = W'.getD (j + ii) 0) :
    codeRounds S W ii k = codeRounds S W' ii k := by
  induction k with
  | zero => rfl
  | succ k ih =>
    rw [codeRounds_succ, codeRounds_succ, ih (fun j hj => hw j (by omega)),
      hw k (by omega)]

/-! ### The message schedule agrees with the spec recurrence -/

/-- One `MSCH` writes word `j+16` with the spec recurrence value and
leaves everything else alone. -/
theorem msch_step (W f16 : List Nat) (j : Nat) (h64 : W.length = 64) (hj : j + 16 < 64)
    (ha : ∀ m, m < j + 16 → W.getD m 0 = Wfun f16 m) :
    (msch W j).length = 64 ∧ ∀ m, m < j + 17 → (msch W j).getD m 0 = Wfun f16 m := by
  refine ⟨by simp [msch, h64], ?_⟩
  intro m hm
  by_cases hmj : m = j + 16
  · subst hmj
    rw [msch, getD_set_self _ _ _ (by omega),
      ha (j + 14) (by omega), ha (j + 9) (by omega), ha (j + 1) (by omega), ha j (by omega)]
    conv_rhs => rw [Wfun]
    rw [dif_neg (by omega)]
    rw [show j + 16 - 2 = j + 14 from by omega, show j + 16 - 7 = j + 9 from by omega,
      show j + 16 - 15 = j + 1 from by omega, show j + 16 - 16 = j from by omega]
    simp only [add32]
    omega
  · rw [msch, getD_set_ne _ _ _ _ (by omega)]
    exact ha m (by omega)

/-- The first `k` `MSCH` writes of one batch. -/
def mschBatch (W : List Nat) (ii k : Nat) : List Nat :=
  (List.range k).foldl (fun W j => msch W (ii + j)) W

theorem doMsch16_eq_mschBatch (W : List Nat) (ii : Nat) :
    doMsch16 W ii = mschBatch W ii 16 := rfl

theorem mschBatch_succ (W : List Nat) (ii k : Nat) :
    mschBatch W ii (k + 1) = msch (mschBatch W ii k) (ii + k) := by
  rw [mschBatch, mschBatch, List.range_succ, List.foldl_append]
  rfl

/-- A batch of `MSCH` writes extends agreement with the spec schedule
by 16 more words. -/
theorem mschBatch_inv (W f16 : List Nat) (ii : Nat) (hii : ii + 32 ≤ 64)
    (h64 : W.length = 64) (ha : ∀ m, m < ii + 16 → W.getD m 0 = Wfun f16 m)
    (k : Nat) (hk : k ≤ 16) :
    (mschBatch W ii k).length = 64 ∧
    ∀ m, m < ii + 16 + k → (mschBatch W ii k).getD m 0 = Wfun f16 m := by
  induction k with
  | zero => exact ⟨h64, fun m hm => ha m (by omega)⟩
  | succ k ih =>
    obtain ⟨hl, ha'⟩ := ih (by omega)
    have hstep := msch_step (mschBatch W ii k) f16 (ii + k) hl (by omega)
      (fun m hm => ha' m (by omega))
    rw [mschBatch_succ]
    exact ⟨hstep.1, fun m hm => hstep.2 m (by omega)⟩

/-- The initially decoded 16 words agree with the spec schedule. -/
theorem W0_agree (block : List Nat) :
    ∀ m, m < 16 →
      (be32dec_vect block 8 ++ List.replicate 48 0).getD m 0
        = Wfun (be32dec_vect block 8) m := by
  intro m hm
  rw [List.getD_append _ _ _ _ (by rw [length_be32dec_vect]; omega), Wfun, dif_pos hm]

theorem W0_length (block : List Nat) :
    (be32dec_vect block 8 ++ List.replicate 48 0).length = 64 := by
  simp [length_be32dec_vect]

/-- The final schedule array of `SHA256_Transform` holds exactly the spec
schedule words `Wfun`. -/
theorem transformW_agree (block : List Nat) :
    (transformW block).length = 64 ∧
    ∀ m, m < 64 → (transformW block).getD m 0 = Wfun (be32dec_vect block 8) m := by
  have h1 := mschBatch_inv (be32dec_vect block 8 ++ List.replicate 48 0)
    (be32dec_vect block 8) 0 (by omega) (W0_length block) (W0_agree block) 16 (by omega)
  have h2 := mschBatch_inv _ (be32dec_vect block 8) 16 (by omega) h1.1
    (fun m hm => h1.2 m (by omega)) 16 (by omega)
  have h3 := mschBatch_inv _ (be32dec_vect block 8) 32 (by omega) h2.1
    (fun m hm => h2.2 m (by omega)) 16 (by omega)
  rw [transformW, doMsch16_eq_mschBatch, doMsch16_eq_mschBatch, doMsch16_eq_mschBatch]
  exact ⟨h3.1, fun m hm => h3.2 m (by omega)⟩

/-! ### The spec schedule list agrees with `Wfun` -/

/-- The first `16 + k` words of the spec schedule. -/
def schedPartial (f16 : List Nat) (k : Nat) : List Nat :=
  (List.range k).foldl
    (fun w i => w ++ [(s1 (w.getD (i + 14) 0) + w.getD (i + 9) 0
       + s0 (w.getD (i + 1) 0) + w.getD i 0) % 4294967296]) f16

theorem scheduleSpec_eq_schedPartial (block : List Nat) :
    scheduleSpec block = schedPartial (be32dec_vect block 8) 48 := rfl

theorem schedPartial_succ (f16 : List Nat) (k : Nat) :
    schedPartial f16 (k + 1) =
      schedPartial f16 k ++
        [(s1 ((schedPartial f16 k).getD (k + 14) 0) + (schedPartial f16 k).getD (k + 9) 0
          + s0 ((schedPartial f16 k).getD (k + 1) 0) + (schedPartial f16 k).getD k 0)
          % 4294967296] := by
  rw [schedPartial, schedPartial, List.range_succ, List.foldl_append]
  rfl

theorem schedPartial_agree (f16 : List Nat) (h16 : f16.length = 16) (k : Nat) (hk : k ≤ 48) :
    (schedPartial f16 k).length = 16 + k ∧
    ∀ m, m < 16 + k → (schedPartial f16 k).getD m 0 = Wfun f16 m := by
  induction k with
  | zero =>
    refine ⟨by simp [schedPartial, h16], fun m hm => ?_⟩
    rw [schedPartial]
    simp only [List.range_zero, List.foldl_nil]
    rw [Wfun, dif_pos (by omega)]
  | succ k ih =>
    obtain ⟨hl, ha⟩ := ih (by omega)
    refine ⟨by rw [schedPartial_succ]; simp [hl]; omega, fun m hm => ?_⟩
    rw [schedPartial_succ]
    by_cases hmk : m = 16 + k
    · subst hmk
      rw [List.getD_append_right _ _ _ _ (by omega)]
      rw [hl, show 16 + k - (16 + k) = 0 from by omega]
      simp only [List.getD_cons_zero]
      rw [ha (k + 14) (by omega), ha (k + 9) (by omega), ha (k + 1) (by omega),
        ha k (by omega)]
      conv_rhs => rw [Wfun]
      rw [dif_neg (by omega)]
      rw [show 16 + k - 2 = k + 14 from by omega, show 16 + k - 7 = k + 9 from by omega,
        show 16 + k - 15 = k + 1 from by omega, show 16 + k - 16 = k from by omega]
    · rw [List.getD_append _ _ _ _ (by omega)]
      exact ha m (by omega)

/-- The spec schedule list and the code's final schedule array coincide. -/
theorem scheduleSpec_eq_transformW_getD (block : List Nat) :
    ∀ m, m < 64 → (scheduleSpec block).getD m 0 = (transformW block).getD m 0 := by
  intro m hm
  have h1 := schedPartial_agree (be32dec_vect block 8) (by rw [length_be32dec_vect])
    48 (by omega)
  rw [scheduleSpec_eq_schedPartial, h1.2 m (by omega), (transformW_agree block).2 m hm]

/-! ### Assembling the four-group refinement -/

theorem regsOfState_eq_regsOfList (S : List Nat) : regsOfState S = regsOfList S 0 := rfl

theorem list_eq_regsToList (S : List Nat) (h : S.length = 8) :
    S = regsToList (regsOfList S 0) := by
  apply List.ext_getElem
  · simp [regsToList, h]
  · intro i h1 h2
    have h1' : i < 8 := by omega
    interval_cases i <;>
      simp [regsToList, regsOfList, List.getD_eq_getElem?_getD, List.getElem?_eq_getElem h1]

/-- The four unrolled round groups of `SHA256_Transform`, interleaved
with the three schedule batches, compute exactly the 64 spec rounds
driven by the spec schedule. -/
theorem fourGroups_sim (state block : List Nat) (h8 : state.length = 8)
    (hb : ∀ x ∈ state, x < 4294967296) :
    codeRounds (codeRounds (codeRounds (codeRounds state
        (be32dec_vect block 8 ++ List.replicate 48 0) 0 16)
        (mschBatch (be32dec_vect block 8 ++ List.replicate 48 0) 0 16) 16 16)
        (mschBatch (mschBatch (be32dec_vect block 8 ++ List.replicate 48 0) 0 16) 16 16) 32 16)
        (mschBatch (mschBatch (mschBatch (be32dec_vect block 8 ++ List.replicate 48 0) 0 16) 16 16) 32 16) 48 16
      = regsToList (specRounds (regsOfList state 0) (scheduleSpec block) 0 64) := by
  have hf16len : (be32dec_vect block 8).length = 16 := by rw [length_be32dec_vect]
  have hA0 := W0_agree block
  have h1 := mschBatch_inv (be32dec_vect block 8 ++ List.replicate 48 0)
    (be32dec_vect block 8) 0 (by omega) (W0_length block) hA0 16 (by omega)
  have h2 := mschBatch_inv _ (be32dec_vect block 8) 16 (by omega) h1.1
    (fun m hm => h1.2 m (by omega)) 16 (by omega)
  have h3 := mschBatch_inv _ (be32dec_vect block 8) 32 (by omega) h2.1
    (fun m hm => h2.2 m (by omega)) 16 (by omega)
  have hsched : ∀ m, m < 64 →
      (scheduleSpec block).getD m 0 = Wfun (be32dec_vect block 8) m := by
    intro m hm
    rw [scheduleSpec_eq_schedPartial]
    exact (schedPartial_agree (be32dec_vect block 8) hf16len 48 (by omega)).2 m (by omega)
  have g1 := codeRounds_sim state (be32dec_vect block 8 ++ List.replicate 48 0) 0
    h8 hb 16 (by omega)
  have c1 := specRounds_congr (regsOfList state 0)
    (be32dec_vect block 8 ++ List.replicate 48 0) (scheduleSpec block) 0 16
    (fun j hj => by rw [hA0 (j + 0) (by omega), hsched (j + 0) (by omega)])
  have t1 : regsOfList (codeRounds state
        (be32dec_vect block 8 ++ List.replicate 48 0) 0 16) 0
      = specRounds (regsOfList state 0) (scheduleSpec block) 0 16 := g1.2.2.trans c1
  have g2 := codeRounds_sim (codeRounds state
      (be32dec_vect block 8 ++ List.replicate 48 0) 0 16)
    (mschBatch (be32dec_vect block 8 ++ List.replicate 48 0) 0 16) 16
    g1.1 g1.2.1 16 (by omega)
  have c2 := specRounds_congr
    (specRounds (regsOfList state 0) (scheduleSpec block) 0 16)
    (mschBatch (be32dec_vect block 8 ++ List.replicate 48 0) 0 16) (scheduleSpec block) 16 16
    (fun j hj => by rw [h1.2 (j + 16) (by omega), hsched (j + 16) (by omega)])
  have t2 : regsOfList (codeRounds (codeRounds state
        (be32dec_vect block 8 ++ List.replicate 48 0) 0 16)
        (mschBatch (be32dec_vect block 8 ++ List.replicate 48 0) 0 16) 16 16) 0
      = specRounds (specRounds (regsOfList state 0) (scheduleSpec block) 0 16)
          (scheduleSpec block) 16 16 := by
    have ht := g2.2.2
    rw [t1] at ht
    exact ht.trans c2
  have g3 := codeRounds_sim (codeRounds (codeRounds state
      (be32dec_vect block 8 ++ List.replicate 48 0) 0 16)
      (mschBatch (be32dec_vect block 8 ++ List.replicate 48 0) 0 16) 16 16)
    (mschBatch (mschBatch (be32dec_vect block 8 ++ List.replicate 48 0) 0 16) 16 16) 32
    g2.1 g2.2.1 16 (by omega)
  have c3 := specRounds_congr
    (specRounds (specRounds (regsOfList state 0) (scheduleSpec block) 0 16)
      (scheduleSpec block) 16 16)
    (mschBatch (mschBatch (be32dec_vect block 8 ++ List.replicate 48 0) 0 16) 16 16)
    (scheduleSpec block) 32 16
    (fun j hj => by rw [h2.2 (j + 32) (by omega), hsched (j + 32) (by omega)])
  have t3 : regsOfList (codeRounds (codeRounds (codeRounds state
        (be32dec_vect block 8 ++ List.replicate 48 0) 0 16)
        (mschBatch (be32dec_vect block 8 ++ List.replicate 48 0) 0 16) 16 16)
        (mschBatch (mschBatch (be32dec_vect block 8 ++ List.replicate 48 0) 0 16) 16 16) 32 16) 0
      = specRounds (specRounds (specRounds (regsOfList state 0) (scheduleSpec block) 0 16)
          (scheduleSpec block) 16 16) (scheduleSpec block) 32 16 := by
    have ht := g3.2.2
    rw [t2] at ht
    exact ht.trans c3
  have g4 := codeRounds_sim (codeRounds (codeRounds (codeRounds state
      (be32dec_vect block 8 ++ List.replicate 48 0) 0 16)
      (mschBatch (be32dec_vect block 8 ++ List.replicate 48 0) 0 16) 16 16)
      (mschBatch (mschBatch (be32dec_vect block 8 ++ List.replicate 48 0) 0 16) 16 16) 32 16)
    (mschBatch (mschBatch (mschBatch (be32dec_vect block 8 ++ List.replicate 48 0) 0 16) 16 16) 32 16) 48
    g3.1 g3.2.1 16 (by omega)
  have c4 := specRounds_congr
    (specRounds (specRounds (specRounds (regsOfList state 0) (scheduleSpec block) 0 16)
      (scheduleSpec block) 16 16) (scheduleSpec block) 32 16)
    (mschBatch (mschBatch (mschBatch (be32dec_vect block 8 ++ List.replicate 48 0) 0 16) 16 16) 32 16)
    (scheduleSpec block) 48 16
    (fun j hj => by rw [h3.2 (j + 48) (by omega), hsched (j + 48) (by omega)])
  have t4 : regsOfList (codeRounds (codeRounds (codeRounds (codeRounds state
        (be32dec_vect block 8 ++ List.replicate 48 0) 0 16)
        (mschBatch (be32dec_vect block 8 ++ List.replicate 48 0) 0 16) 16 16)
        (mschBatch (mschBatch (be32dec_vect block 8 ++ List.replicate 48 0) 0 16) 16 16) 32 16)
        (mschBatch (mschBatch (mschBatch (be32dec_vect block 8 ++ List.replicate 48 0) 0 16) 16 16) 32 16) 48 16) 0
      = specRounds (specRounds (specRounds (specRounds (regsOfList state 0)
          (scheduleSpec block) 0 16) (scheduleSpec block) 16 16)
          (scheduleSpec block) 32 16) (scheduleSpec block) 48 16 := by
    have ht := g4.2.2
    rw [t3] at ht
    exact ht.trans c4
  have hsplit : specRounds (regsOfList state 0) (scheduleSpec block) 0 64
      = specRounds (specRounds (specRounds (specRounds (regsOfList state 0)
          (scheduleSpec block) 0 16) (scheduleSpec block) 16 16)
          (scheduleSpec block) 32 16) (scheduleSpec block) 48 16 := by
    have e1 := specRounds_add (regsOfList state 0) (scheduleSpec block) 0 16 48
    have e2 := specRounds_add (specRounds (regsOfList state 0) (scheduleSpec block) 0 16)
      (scheduleSpec block) 16 16 32
    have e3 := specRounds_add (specRounds (specRounds (regsOfList state 0)
      (scheduleSpec block) 0 16) (scheduleSpec block) 16 16) (scheduleSpec block) 32 16 16
    exact e1.trans (e2.trans e3)
  rw [list_eq_regsToList _ g4.1, hsplit]
  rw [t4]

/-- C5: the optimized compression of `SHA256_Transform` — with the
rewritten `Ch`/`Maj`, the in-place `RND` update and the rotating `RNDr`
register scheme — computes exactly the standard 64-round spec function
followed by the feed-forward addition, for every 8-word state and every
block. -/
theorem SHA256_Transform_refines_spec (state block : List Nat) (h8 : state.length = 8)
    (hb : ∀ x ∈ state, x < 4294967296) :
    SHA256_Transform state block = SHA256_Transform_spec state block :=
  congrArg (List.zipWith add32 state) (fourGroups_sim state block h8 hb)

/-- Witness for `SHA256_Transform_refines_spec` on the initial state and
an all-zero block. -/
theorem SHA256_Transform_refines_spec_witness :
    initial_state.length = 8 ∧
    SHA256_Transform initial_state (List.replicate 64 0)
      = SHA256_Transform_spec initial_state (List.replicate 64 0) :=
  ⟨by decide, SHA256_Transform_refines_spec initial_state (List.replicate 64 0)
    (by decide) (by decide)⟩

/-! ### C6: the schedule words consumed by the rounds -/

/-- C6: the 64 schedule words of a block satisfy `w[0..15] =` the block
decoded as 16 big-endian words (the `be32dec_vect` call with length 8
decodes all 16) and, for `16 ≤ i ≤ 63`,
`w[i] = σ1(w[i-2]) + w[i-7] + σ0(w[i-15]) + w[i-16] (mod 2^32)`; and
although the code computes words 16..63 in interleaved 16-word batches,
the rounds consume exactly this final 64-word schedule. -/
theorem message_schedule_correct (block : List Nat) :
    (be32dec_vect block 8).length = 16 ∧
    (transformW block).length = 64 ∧
    (∀ i, i < 16 → (transformW block).getD i 0 = (be32dec_vect block 8).getD i 0) ∧
    (∀ i, 16 ≤ i → i < 64 →
      (transformW block).getD i 0 =
        (s1 ((transformW block).getD (i - 2) 0) + (transformW block).getD (i - 7) 0
          + s0 ((transformW block).getD (i - 15) 0)
          + (transformW block).getD (i - 16) 0) % 4294967296) ∧
    (∀ state, SHA256_Transform state block
        = List.zipWith add32 state
            (doRounds16 (doRounds16 (doRounds16 (doRounds16 state (transformW block) 0)
              (transformW block) 16) (transformW block) 32) (transformW block) 48)) := by
  refine ⟨by rw [length_be32dec_vect], (transformW_agree block).1, ?_, ?_, ?_⟩
  · intro i hi
    rw [(transformW_agree block).2 i (by omega), Wfun, dif_pos hi]
  · intro i h16 h64
    rw [(transformW_agree block).2 i (by omega),
      (transformW_agree block).2 (i - 2) (by omega),
      (transformW_agree block).2 (i - 7) (by omega),
      (transformW_agree block).2 (i - 15) (by omega),
      (transformW_agree block).2 (i - 16) (by omega)]
    conv_lhs => rw [Wfun]
    rw [dif_neg (by omega)]
  · intro state
    have hA0 := W0_agree block
    have h1 := mschBatch_inv (be32dec_vect block 8 ++ List.replicate 48 0)
      (be32dec_vect block 8) 0 (by omega) (W0_length block) hA0 16 (by omega)
    have h2 := mschBatch_inv _ (be32dec_vect block 8) 16 (by omega) h1.1
      (fun m hm => h1.2 m (by omega)) 16 (by omega)
    have h3 := mschBatch_inv _ (be32dec_vect block 8) 32 (by omega) h2.1
      (fun m hm => h2.2 m (by omega)) 16 (by omega)
    rw [SHA256_Transform]
    simp only [doRounds16_eq_codeRounds, doMsch16_eq_mschBatch, transformW]
    rw [codeRounds_congr state (be32dec_vect block 8 ++ List.replicate 48 0)
        (mschBatch (mschBatch (mschBatch (be32dec_vect block 8 ++ List.replicate 48 0) 0 16) 16 16) 32 16) 0 16
        (fun j hj => by rw [hA0 (j + 0) (by omega), h3.2 (j + 0) (by omega)]),
      codeRounds_congr _ (mschBatch (be32dec_vect block 8 ++ List.replicate 48 0) 0 16)
        (mschBatch (mschBatch (mschBatch (be32dec_vect block 8 ++ List.replicate 48 0) 0 16) 16 16) 32 16) 16 16
        (fun j hj => by rw [h1.2 (j + 16) (by omega), h3.2 (j + 16) (by omega)]),
      codeRounds_congr _ (mschBatch (mschBatch (be32dec_vect block 8 ++ List.replicate 48 0) 0 16) 16 16)
        (mschBatch (mschBatch (mschBatch (be32dec_vect block 8 ++ List.replicate 48 0) 0 16) 16 16) 32 16) 32 16
        (fun j hj => by rw [h2.2 (j + 32) (by omega), h3.2 (j + 32) (by omega)])]

/-- Witness for `message_schedule_correct`: the recurrence at word 16 of
the all-zero block. -/
theorem message_schedule_correct_witness :
    (transformW (List.replicate 64 0)).getD 16 0 =
      (s1 ((transformW (List.replicate 64 0)).getD (16 - 2) 0)
        + (transformW (List.replicate 64 0)).getD (16 - 7) 0
        + s0 ((transformW (List.replicate 64 0)).getD (16 - 15) 0)
        + (transformW (List.replicate 64 0)).getD (16 - 16) 0) % 4294967296 :=
  (message_schedule_correct (List.replicate 64 0)).2.2.2.1 16 (by omega) (by omega)
